import Mathlib

/-! BinaryWeightAffine

A shallow embedding of the operator class declared in
`include/nbla/function/binary_weight_affine.hpp`.

The header defines the fields, the constructor, `copy`, `in_types`,
`out_types`, `min_inputs`, `min_outputs` and `name` inline; these are
translated line by line.  `setup_impl`, `forward_impl` and `backward_impl`
are only declared there; their definitions below are marked as modelled from
the specification.
-/

namespace nbla

/-- Address of a `Function` object held through a `shared_ptr<Function>`. -/
abbrev Addr := Nat

/-- Modelled from the spec: the base class `BaseFunction<int>` (with `Function`
    under it) of `nbla/function.hpp`, which the header includes but which is not
    part of the sources.  Only the two members the header relies on are kept:
    `ctx_`, read by `copy`, and `args_`, the tuple of constructor arguments that
    `BaseFunction(ctx, base_axis)` receives. -/
structure BaseFunction (Context : Type) where
  ctx_ : Context
  args_ : Int
deriving DecidableEq, Repr

/-- Base constructor call `BaseFunction(ctx, base_axis)` of line 89. -/
def BaseFunction.new {Context : Type} (ctx : Context) (arg : Int) : BaseFunction Context :=
  { ctx_ := ctx, args_ := arg }

/-- Fields of `BinaryWeightAffine<T>` (lines 81-85) on top of its base.
    A `shared_ptr<Function>` is `none` when empty and `some a` when it owns the
    object at address `a`.  `w_row_` and `w_col_` have no initialiser in the
    constructor; `none` stands for that not-yet-assigned state. -/
structure BinaryWeightAffine (Context : Type) extends BaseFunction Context where
  base_axis_ : Int
  sign_ : Option Addr
  affine_ : Option Addr
  w_row_ : Option Nat
  w_col_ : Option Nat
deriving DecidableEq, Repr

/-- Constructor of lines 88-89:
    `BinaryWeightAffine(const Context &ctx, int base_axis)
       : BaseFunction(ctx, base_axis), base_axis_(base_axis) {}`.
    The two handles are default-constructed, hence empty. -/
def BinaryWeightAffine.new {Context : Type} (ctx : Context) (base_axis : Int) :
    BinaryWeightAffine Context :=
  { toBaseFunction := BaseFunction.new ctx base_axis
    base_axis_ := base_axis
    sign_ := none
    affine_ := none
    w_row_ := none
    w_col_ := none }

/-- Method `copy` of lines 91-93: `return create_BinaryWeightAffine(ctx_, base_axis_);`.
    The factory is declared by the registration header line 35 and is passed
    in here. -/
def BinaryWeightAffine.copy {Context R : Type} (create : Context → Int → R)
    (self : BinaryWeightAffine Context) : R :=
  create self.ctx_ self.base_axis_

/-- Method `in_types` of lines 94-97.  `t` is the template argument `T` and
    `get_dtype` the framework function `get_dtype<T>()`. -/
def BinaryWeightAffine.in_types {Context T dtypes : Type} (get_dtype : T → dtypes) (t : T)
    (_self : BinaryWeightAffine Context) : List dtypes :=
  [get_dtype t, get_dtype t, get_dtype t, get_dtype t]

/-- Method `out_types` of line 98. -/
def BinaryWeightAffine.out_types {Context T dtypes : Type} (get_dtype : T → dtypes) (t : T)
    (_self : BinaryWeightAffine Context) : List dtypes :=
  [get_dtype t]

/-- Method `min_inputs` of line 99. -/
def BinaryWeightAffine.min_inputs {Context : Type} (_self : BinaryWeightAffine Context) : Int := 4

/-- Method `min_outputs` of line 100. -/
def BinaryWeightAffine.min_outputs {Context : Type} (_self : BinaryWeightAffine Context) : Int := 1

/-- Method `name` of line 101. -/
def BinaryWeightAffine.name {Context : Type} (_self : BinaryWeightAffine Context) : String :=
  "BinaryWeightAffine"

/-- Objects that live behind `shared_ptr<Function>` handles: operators of this
    class and the two delegated sub-operators. -/
inductive FunctionObject (Context : Type) where
  | binary_weight_affine (f : BinaryWeightAffine Context)
  | sign (ctx : Context)
  | affine (ctx : Context) (base_axis : Int)
deriving DecidableEq, Repr

/-- Store of allocated `Function` objects; an address is a position in it. -/
abbrev Heap (Context : Type) := List (FunctionObject Context)

/-- Modelled from the spec: the factory `create_BinaryWeightAffine` that
    `NBLA_REGISTER_FUNCTION_HEADER(BinaryWeightAffine, int)` declares
    (`nbla/function_registry.hpp`, not part of the sources).  Following
    "a factory/registration hook lets the runtime instantiate the operator
    generically by name and type", it allocates a new object built by the
    constructor and returns the handle to it. -/
def create_BinaryWeightAffine {Context : Type} (ctx : Context) (base_axis : Int)
    (h : Heap Context) : Heap Context × Addr :=
  (h ++ [FunctionObject.binary_weight_affine (BinaryWeightAffine.new ctx base_axis)], h.length)

/-! ## Lifecycle hooks

`setup_impl`, `forward_impl` and `backward_impl` are declared at lines 107-114
and defined in a translation unit that is not part of the sources.  The
definitions of this section follow the specification and the class
documentation of lines 37-78. -/

/-- Modelled from the spec: a framework `Variable` (`nbla/variable.hpp`, not part
    of the sources): a shape with a data array and a gradient array, both kept
    flat in row-major order. -/
structure Variable (α : Type) where
  shape : List Nat
  data : List α
  grad : List α
deriving DecidableEq, Repr

/-- Modelled from the spec: the `inputs` argument of the hooks, in the order of
    the class documentation (lines 60-67): input array, weight matrix,
    binarized weight matrix and the optional bias vector. -/
structure Inputs (α : Type) where
  x : Variable α
  weight : Variable α
  binary_weight : Variable α
  bias : Option (Variable α)
deriving DecidableEq, Repr

/-- Modelled from the spec: the failures of `setup_impl`, whose body is not in
    the sources.  The spec names the dimension-mismatch error; the other two
    stand for the remaining shape validation. -/
inductive SetupError where
  | invalid_base_axis
  | dimension_mismatch
  | shape_mismatch
deriving DecidableEq, Repr

/-- Modelled from the spec: what a successful `setup_impl` (body not in the
    sources) leaves behind: the store with the two new sub-operators, the
    configured operator and the shape given to the output. -/
structure SetupResult (Context : Type) where
  heap : Heap Context
  self : BinaryWeightAffine Context
  out_shape : List Nat
deriving DecidableEq, Repr

/-- Modelled from the spec: the shape check of the optional bias inside
    `setup_impl` (body not in the sources): absent, or a vector of `L` entries
    (line 67). -/
def bias_shape_ok {α : Type} (bias : Option (Variable α)) (L : Nat) : Bool :=
  match bias with
  | none => true
  | some b => decide (b.shape = [L])

/-- Modelled from the spec: `setup_impl` (declared at lines 107-108, body not in
    the sources).  "Given input tensors, validates shape compatibility, computes
    flattened matrix dimensions from `base_axis`, and configures/creates internal
    sign and affine sub-operators and the output tensor shape.  Fails
    (dimension-mismatch error) if weight tensor shape is incompatible with the
    flattened input feature dimension."  Shapes are those of lines 60-70: the
    weight has `D_B * ... * D_N` rows, the binarized weight has the weight's
    shape, the bias has `L` entries, the output is `M_0 x ... x M_{B-1} x L`. -/
def BinaryWeightAffine.setup_impl {Context α : Type} (self : BinaryWeightAffine Context)
    (inputs : Inputs α) (h : Heap Context) : Except SetupError (SetupResult Context) :=
  if self.base_axis_ < 0 ∨ (inputs.x.shape.length : Int) ≤ self.base_axis_ then
    Except.error SetupError.invalid_base_axis
  else
    match inputs.weight.shape with
    | [] => Except.error SetupError.dimension_mismatch
    | rows :: cols =>
      if rows ≠ (inputs.x.shape.drop self.base_axis_.toNat).prod then
        Except.error SetupError.dimension_mismatch
      else if inputs.binary_weight.shape ≠ inputs.weight.shape then
        Except.error SetupError.shape_mismatch
      else if bias_shape_ok inputs.bias cols.prod = false then
        Except.error SetupError.shape_mismatch
      else
        Except.ok
          { heap := h ++ [FunctionObject.sign self.ctx_,
                          FunctionObject.affine self.ctx_ self.base_axis_]
            self := { self with
              sign_ := some h.length
              affine_ := some (h.length + 1)
              w_row_ := some rows
              w_col_ := some cols.prod }
            out_shape := inputs.x.shape.take self.base_axis_.toNat ++ [cols.prod] }

section Arithmetic

variable {α : Type} [Zero α] [Add α] [Mul α] [Neg α] [LT α] [DecidableRel (fun a b : α => a < b)]

/-- Modelled from the spec: forward pass of the sign sub-operator together with
    the scaling, "the deterministic ±1 quantization of a tensor" "with a
    scale" `s`: an entry below zero becomes `-s`, every other entry `s`. -/
def sign_forward (s : α) (w : List α) : List α :=
  w.map (fun v => if v < 0 then -s else s)

/-- Modelled from the spec: the matrix product inside the affine sub-operator
    (not in the sources), of an `M x D` matrix with a `D x L` matrix, both flat
    in row-major order; the result is flat `M x L`. -/
def matmul (M D L : Nat) (x A : List α) : List α :=
  (List.range M).map (fun m => (List.range L).map (fun l =>
    (List.range D).foldl (fun acc d => acc + x.getD (m * D + d) 0 * A.getD (d * L + l) 0) 0))
    |>.flatten

/-- Modelled from the spec: forward pass of the affine sub-operator, "linear
    transform `y = Ax + b`" with the bias optional: without a bias the result is
    the product alone, with one the bias entry of the column is added. -/
def affine_forward (M D L : Nat) (x A : List α) (b : Option (List α)) : List α :=
  match b with
  | none => matmul M D L x A
  | some bv => (matmul M D L x A).enum.map (fun p => p.2 + bv.getD (p.1 % L) 0)

/-- Modelled from the spec: `forward_impl` (declared at lines 109-110, body not in
    the sources).  "(1) applies the sign sub-operator to the floating-point
    weight tensor, writing the scaled ±1 result into the binarized-weight tensor
    slot; (2) applies the affine sub-operator using the input activations, the
    binarized weights, and optional bias, writing the result to the output
    tensor."  The spec does not say how the scale is obtained; `scale` receives
    the cached `w_row_`, `w_col_` and the weight data.  Calling through an empty
    sub-operator handle has no result. -/
def BinaryWeightAffine.forward_impl {Context : Type} (scale : Nat → Nat → List α → α)
    (self : BinaryWeightAffine Context) (inputs : Inputs α) (output : Variable α) :
    Option (Inputs α × Variable α) :=
  match self.sign_, self.affine_, self.w_row_, self.w_col_ with
  | some _, some _, some rows, some cols =>
    let wb := sign_forward (scale rows cols inputs.weight.data) inputs.weight.data
    let m := (inputs.x.shape.take self.base_axis_.toNat).prod
    let y := affine_forward m rows cols inputs.x.data wb (inputs.bias.map (fun b => b.data))
    some ({ inputs with binary_weight := { inputs.binary_weight with data := wb } },
          { output with data := y })
  | _, _, _, _ => none

/-- Modelled from the spec: the gradient write of one input inside
    `backward_impl` (body not in the sources), "accumulate into existing
    gradient vs overwrite". -/
def write_grad (accum : Bool) (old g : List α) : List α :=
  if accum then List.zipWith (fun a b => a + b) old g else g

/-- Modelled from the spec: `backward_impl` (declared at lines 111-114, body not in
    the sources).  "Propagates gradients from the output back to the input
    activation and to the floating-point weight tensor (not to the
    binarized-weight tensor), respecting `propagate_down`/`accum` flags per
    input.  Does not refresh the binarized-weight tensor."  The spec gives no
    formula for the gradients; `grad_x` and `grad_w` stand for what the affine
    sub-operator computes from the inputs and the output gradient. -/
def BinaryWeightAffine.backward_impl {Context : Type}
    (grad_x grad_w : Inputs α → Variable α → List α)
    (self : BinaryWeightAffine Context) (inputs : Inputs α) (output : Variable α)
    (propagate_down accum : List Bool) : Option (Inputs α) :=
  match self.sign_, self.affine_ with
  | some _, some _ =>
    let x1 := if propagate_down.getD 0 false then
        { inputs.x with
          grad := write_grad (accum.getD 0 false) inputs.x.grad (grad_x inputs output) }
      else inputs.x
    let w1 := if propagate_down.getD 1 false then
        { inputs.weight with
          grad := write_grad (accum.getD 1 false) inputs.weight.grad (grad_w inputs output) }
      else inputs.weight
    some { inputs with x := x1, weight := w1 }
  | _, _ => none

end Arithmetic

/-! ## Concrete operators and tensors used by the instance checks -/

/-- Operator over a one-point context with `base_axis = 1`. -/
def op1 : BinaryWeightAffine Unit := BinaryWeightAffine.new () 1

/-- Inputs with a `2 x 3` activation, a `3 x 2` weight, a stale binarized weight
    and a bias of two entries. -/
def inputs23 : Inputs Int :=
  { x := { shape := [2, 3], data := [1, 2, 3, 4, 5, 6], grad := [0, 0, 0, 0, 0, 0] }
    weight := { shape := [3, 2], data := [5, -7, -1, 0, 2, -3], grad := [0, 0, 0, 0, 0, 0] }
    binary_weight := { shape := [3, 2], data := [9, 9, 9, 9, 9, 9], grad := [1, 1, 1, 1, 1, 1] }
    bias := some { shape := [2], data := [10, 20], grad := [0, 0] } }

/-- Output variable of shape `2 x 2` before any forward pass. -/
def output22 : Variable Int := { shape := [2, 2], data := [0, 0, 0, 0], grad := [1, 2, 3, 4] }

/-- A scale that is constant 2, whatever the weights. -/
def scale2 : Nat → Nat → List Int → Int := fun _ _ _ => 2

/-- The operator `op1` after `setup_impl` on `inputs23` in an empty store. -/
def op1_ready : BinaryWeightAffine Unit :=
  { op1 with sign_ := some 0, affine_ := some 1, w_row_ := some 3, w_col_ := some 2 }

/-- Result of `setup_impl` for `op1` on `inputs23` in an empty store. -/
def setup23 : SetupResult Unit :=
  { heap := [FunctionObject.sign (), FunctionObject.affine () 1]
    self := op1_ready
    out_shape := [2, 2] }

/-- The inputs of `inputs23` with a weight of four rows, one more than the three
    features of the input array. -/
def inputs43 : Inputs Int :=
  { inputs23 with
    weight := { shape := [4, 2], data := [5, -7, -1, 0, 2, -3, 1, 1],
                grad := [0, 0, 0, 0, 0, 0, 0, 0] }
    binary_weight := { shape := [4, 2], data := [9, 9, 9, 9, 9, 9, 9, 9],
                       grad := [1, 1, 1, 1, 1, 1, 1, 1] } }

/-- Gradient of the input array used in the instance checks. -/
def grad_x7 : Inputs Int → Variable Int → List Int := fun _ _ => [7, 7, 7, 7, 7, 7]

/-- Gradient of the weight used in the instance checks. -/
def grad_w8 : Inputs Int → Variable Int → List Int := fun _ _ => [8, 8, 8, 8, 8, 8]

/-! ## Properties of the inline members -/

/-- C1: for every instance, whatever its context and `base_axis` (and whatever
    the state of its other fields), `min_inputs()` is 4 and `min_outputs()`
    is 1. -/
theorem min_inputs_min_outputs {Context : Type} (self : BinaryWeightAffine Context) :
    self.min_inputs = 4 ∧ self.min_outputs = 1 :=
  ⟨rfl, rfl⟩

/-- C2: for every element type `t` and every instance, `in_types()` has as many
    entries as `min_inputs()` (4), each equal to `get_dtype<T>()`, and
    `out_types()` has as many entries as `min_outputs()` (1), the single entry
    being `get_dtype<T>()`. -/
theorem in_types_out_types {Context T dtypes : Type} (get_dtype : T → dtypes) (t : T)
    (self : BinaryWeightAffine Context) :
    ((self.in_types get_dtype t).length : Int) = self.min_inputs
      ∧ (self.in_types get_dtype t).length = 4
      ∧ (∀ d ∈ self.in_types get_dtype t, d = get_dtype t)
      ∧ ((self.out_types get_dtype t).length : Int) = self.min_outputs
      ∧ self.out_types get_dtype t = [get_dtype t] := by
  refine ⟨rfl, rfl, ?_, rfl, rfl⟩
  intro d hd
  simp only [BinaryWeightAffine.in_types, List.mem_cons, List.mem_singleton] at hd
  rcases hd with hd | hd | hd | hd | hd
  · exact hd
  · exact hd
  · exact hd
  · exact hd
  · exact absurd hd (List.not_mem_nil d)

/-- C3: for an operator built with `BinaryWeightAffine(ctx, base_axis)`, in any
    later state `s a r c` of its handles and cached sizes, `copy()` is the
    factory applied to the same `ctx` and the same `base_axis`; with the
    registered factory the object so created is the freshly constructed
    operator for `ctx` and `base_axis`, which reports the same name, arities
    and `base_axis_` as the original. -/
theorem copy_identical_configuration {Context : Type} (ctx : Context) (base_axis : Int)
    (s a : Option Addr) (r c : Option Nat) (h : Heap Context) :
    (∀ (R : Type) (create : Context → Int → R),
        ({ BinaryWeightAffine.new ctx base_axis with
            sign_ := s, affine_ := a, w_row_ := r, w_col_ := c }).copy create
          = create ctx base_axis)
      ∧ ∃ g : BinaryWeightAffine Context,
          (({ BinaryWeightAffine.new ctx base_axis with
                sign_ := s, affine_ := a, w_row_ := r, w_col_ := c }).copy
              create_BinaryWeightAffine h).1[
            (({ BinaryWeightAffine.new ctx base_axis with
                sign_ := s, affine_ := a, w_row_ := r, w_col_ := c }).copy
              create_BinaryWeightAffine h).2]?
            = some (FunctionObject.binary_weight_affine g)
          ∧ g = BinaryWeightAffine.new ctx base_axis
          ∧ g.ctx_ = ctx ∧ g.base_axis_ = base_axis ∧ g.args_ = base_axis
          ∧ g.name = ({ BinaryWeightAffine.new ctx base_axis with
                sign_ := s, affine_ := a, w_row_ := r, w_col_ := c }).name
          ∧ g.min_inputs = ({ BinaryWeightAffine.new ctx base_axis with
                sign_ := s, affine_ := a, w_row_ := r, w_col_ := c }).min_inputs
          ∧ g.min_outputs = ({ BinaryWeightAffine.new ctx base_axis with
                sign_ := s, affine_ := a, w_row_ := r, w_col_ := c }).min_outputs := by
  refine ⟨fun R create => rfl, BinaryWeightAffine.new ctx base_axis, ?_, rfl, rfl, rfl, rfl,
    rfl, rfl, rfl⟩
  simp [BinaryWeightAffine.copy, create_BinaryWeightAffine, BinaryWeightAffine.new,
    BaseFunction.new]

/-- C4: for every operator `self`, set up or not, stored at any address of the
    store: whatever the factory, the result of `copy()` does not depend on the
    handles and cached sizes of the original; with the registered factory
    `copy()` returns a fresh address (no object lived there), leaves every
    object already in the store as it was (so the original keeps its
    `base_axis_`, `sign_`, `affine_`, `w_row_` and `w_col_`), and the new
    object has empty `sign_` and `affine_` handles, which therefore are not the
    sub-operator instances the original owns. -/
theorem copy_shares_no_state {Context : Type} (self : BinaryWeightAffine Context)
    (h : Heap Context) :
    (∀ (R : Type) (create : Context → Int → R) (s a : Option Addr) (r c : Option Nat),
        ({ self with sign_ := s, affine_ := a, w_row_ := r, w_col_ := c }).copy create
          = self.copy create)
      ∧ (self.copy create_BinaryWeightAffine h).2 = h.length
      ∧ h[(self.copy create_BinaryWeightAffine h).2]? = none
      ∧ (∀ a : Addr, a < h.length → (self.copy create_BinaryWeightAffine h).1[a]? = h[a]?)
      ∧ (∀ a : Addr, h[a]? = some (FunctionObject.binary_weight_affine self) →
          (self.copy create_BinaryWeightAffine h).1[a]?
              = some (FunctionObject.binary_weight_affine self)
            ∧ (self.copy create_BinaryWeightAffine h).2 ≠ a)
      ∧ ∃ g : BinaryWeightAffine Context,
          (self.copy create_BinaryWeightAffine h).1[(self.copy create_BinaryWeightAffine h).2]?
              = some (FunctionObject.binary_weight_affine g)
            ∧ g.sign_ = none ∧ g.affine_ = none
            ∧ (∀ a : Addr, self.sign_ = some a → g.sign_ ≠ self.sign_ ∧ g.affine_ ≠ some a)
            ∧ (∀ a : Addr, self.affine_ = some a → g.affine_ ≠ self.affine_ ∧ g.sign_ ≠ some a)
            ∧ (self.copy create_BinaryWeightAffine h).1.length = h.length + 1 := by
  have hfresh : h[h.length]? = none := List.getElem?_eq_none (Nat.le_refl _)
  have hkeep : ∀ a : Addr, a < h.length →
      (h ++ [FunctionObject.binary_weight_affine
        (BinaryWeightAffine.new self.ctx_ self.base_axis_)])[a]? = h[a]? :=
    fun a ha => List.getElem?_append_left ha
  refine ⟨fun R create s a r c => rfl, rfl, hfresh, hkeep, ?_,
    BinaryWeightAffine.new self.ctx_ self.base_axis_, ?_, rfl, rfl, ?_, ?_, ?_⟩
  · intro a ha
    have hlt : a < h.length := by
      by_contra hge
      rw [List.getElem?_eq_none (Nat.le_of_not_lt hge)] at ha
      exact Option.noConfusion ha
    refine ⟨?_, fun heq => ?_⟩
    · show (h ++ _)[a]? = _
      rw [hkeep a hlt, ha]
    · have h1 : h.length = a := heq
      rw [← h1] at hlt
      exact Nat.lt_irrefl _ hlt
  · show (h ++ [_])[h.length]? = _
    simp
  · intro a ha
    refine ⟨?_, fun hne => Option.noConfusion hne⟩
    rw [ha]
    exact fun hne => Option.noConfusion hne
  · intro a ha
    refine ⟨?_, fun hne => Option.noConfusion hne⟩
    rw [ha]
    exact fun hne => Option.noConfusion hne
  · show (h ++ [_]).length = _
    simp

/-- C10: for every context and every integer `base_axis`, negative or large,
    the constructor returns an operator (it is total: no check, no failure)
    with `base_axis_` and the base argument tuple equal to the argument, the
    context stored, and empty `sign_` and `affine_` handles; none of the
    inline members assigns them, and the object made by `copy()` of any
    operator, one with both handles set included, again has both handles
    empty. -/
theorem constructor_no_validation {Context : Type} (ctx : Context) (base_axis : Int) :
    (BinaryWeightAffine.new ctx base_axis).base_axis_ = base_axis
      ∧ (BinaryWeightAffine.new ctx base_axis).args_ = base_axis
      ∧ (BinaryWeightAffine.new ctx base_axis).ctx_ = ctx
      ∧ (BinaryWeightAffine.new ctx base_axis).sign_ = none
      ∧ (BinaryWeightAffine.new ctx base_axis).affine_ = none
      ∧ ∀ (self : BinaryWeightAffine Context) (h : Heap Context),
          (self.copy create_BinaryWeightAffine h).1[(self.copy create_BinaryWeightAffine h).2]?
              = some (FunctionObject.binary_weight_affine
                  (BinaryWeightAffine.new self.ctx_ self.base_axis_))
            ∧ (BinaryWeightAffine.new self.ctx_ self.base_axis_).sign_ = none
            ∧ (BinaryWeightAffine.new self.ctx_ self.base_axis_).affine_ = none := by
  refine ⟨rfl, rfl, rfl, rfl, rfl, fun self h => ⟨?_, rfl, rfl⟩⟩
  show (h ++ [_])[h.length]? = _
  simp

/-! ## Properties of the lifecycle hooks -/

/-- What a successful `setup_impl` says about its arguments and its result. -/
theorem setup_impl_ok_inv {Context α : Type} (self : BinaryWeightAffine Context)
    (inputs : Inputs α) (h : Heap Context) (r : SetupResult Context)
    (hs : self.setup_impl inputs h = Except.ok r) :
    0 ≤ self.base_axis_ ∧ self.base_axis_ < (inputs.x.shape.length : Int)
      ∧ ∃ rows cols, inputs.weight.shape = rows :: cols
          ∧ rows = (inputs.x.shape.drop self.base_axis_.toNat).prod
          ∧ inputs.binary_weight.shape = inputs.weight.shape
          ∧ bias_shape_ok inputs.bias cols.prod = true
          ∧ r = { heap := h ++ [FunctionObject.sign self.ctx_,
                                FunctionObject.affine self.ctx_ self.base_axis_]
                  self := { self with
                    sign_ := some h.length
                    affine_ := some (h.length + 1)
                    w_row_ := some rows
                    w_col_ := some cols.prod }
                  out_shape := inputs.x.shape.take self.base_axis_.toNat ++ [cols.prod] } := by
  unfold BinaryWeightAffine.setup_impl at hs
  split at hs
  · exact Except.noConfusion hs
  · rename_i hB
    have hB1 : 0 ≤ self.base_axis_ := by
      by_contra hneg
      exact hB (Or.inl (lt_of_not_ge hneg))
    have hB2 : self.base_axis_ < (inputs.x.shape.length : Int) := by
      by_contra hge
      exact hB (Or.inr (le_of_not_gt hge))
    refine ⟨hB1, hB2, ?_⟩
    split at hs
    · exact Except.noConfusion hs
    · rename_i rows cols hW
      split at hs
      · exact Except.noConfusion hs
      · rename_i hrows
        split at hs
        · exact Except.noConfusion hs
        · rename_i hwb
          split at hs
          · exact Except.noConfusion hs
          · rename_i hbias
            refine ⟨rows, cols, hW, not_not.mp hrows, ?_, ?_, ?_⟩
            · exact not_not.mp hwb
            · cases hb : bias_shape_ok inputs.bias cols.prod
              · exact absurd hb hbias
              · rfl
            · injection hs with hs
              exact hs.symm

/-- C7: for an input shape and a `base_axis` inside it, `setup_impl` ends in the
    dimension-mismatch error whenever the row count of the weight (its first
    dimension) is not the product of the input dimensions from `base_axis` on,
    and a successful `setup_impl` implies that the two agree. -/
theorem setup_fails_on_row_mismatch {Context α : Type} (self : BinaryWeightAffine Context)
    (inputs : Inputs α) (h : Heap Context)
    (hB0 : 0 ≤ self.base_axis_) (hB1 : self.base_axis_ < (inputs.x.shape.length : Int)) :
    (inputs.weight.shape.head? ≠ some (inputs.x.shape.drop self.base_axis_.toNat).prod →
        self.setup_impl inputs h = Except.error SetupError.dimension_mismatch)
      ∧ (∀ r, self.setup_impl inputs h = Except.ok r →
          inputs.weight.shape.head? = some (inputs.x.shape.drop self.base_axis_.toNat).prod) := by
  constructor
  · intro hne
    have hB : ¬ (self.base_axis_ < 0 ∨ (inputs.x.shape.length : Int) ≤ self.base_axis_) := by
      rintro (hlt | hge)
      · exact absurd hB0 (not_le.mpr hlt)
      · exact absurd hB1 (not_lt.mpr hge)
    unfold BinaryWeightAffine.setup_impl
    rw [if_neg hB]
    split
    · rfl
    · rename_i rows cols hW
      have hrows : rows ≠ (inputs.x.shape.drop self.base_axis_.toNat).prod := by
        intro heq
        apply hne
        rw [hW, ← heq]
        rfl
      rw [if_pos hrows]
  · intro r hs
    obtain ⟨_, _, rows, cols, hW, hrows, _⟩ := setup_impl_ok_inv self inputs h r hs
    rw [hW, ← hrows]
    rfl

/-- C8: when `setup_impl` succeeds for a weight of shape `(R, L)`, the output
    shape is the first `base_axis` input dimensions followed by `L`, it has
    `base_axis + 1` dimensions, `R` is the product of the input dimensions from
    `base_axis` on, the cached `w_row_` is that product and `w_col_` is `L`; the
    two sub-operator handles are set and `base_axis_` is unchanged. -/
theorem setup_output_shape {Context α : Type} (self : BinaryWeightAffine Context)
    (inputs : Inputs α) (h : Heap Context) (r : SetupResult Context) (R L : Nat)
    (hs : self.setup_impl inputs h = Except.ok r) (hW : inputs.weight.shape = [R, L]) :
    r.out_shape = inputs.x.shape.take self.base_axis_.toNat ++ [L]
      ∧ (r.out_shape.length : Int) = self.base_axis_ + 1
      ∧ R = (inputs.x.shape.drop self.base_axis_.toNat).prod
      ∧ r.self.w_row_ = some (inputs.x.shape.drop self.base_axis_.toNat).prod
      ∧ r.self.w_col_ = some L
      ∧ r.self.sign_ = some h.length ∧ r.self.affine_ = some (h.length + 1)
      ∧ r.heap[h.length]? = some (FunctionObject.sign self.ctx_)
      ∧ r.heap[h.length + 1]? = some (FunctionObject.affine self.ctx_ self.base_axis_)
      ∧ r.self.base_axis_ = self.base_axis_ ∧ r.self.ctx_ = self.ctx_ := by
  obtain ⟨hB0, hB1, rows, cols, hW2, hrows, _, _, hr⟩ := setup_impl_ok_inv self inputs h r hs
  rw [hW] at hW2
  injection hW2 with h1 h2
  subst h1
  subst h2
  subst hr
  have hL : [L].prod = L := by simp
  have hlen : self.base_axis_.toNat ≤ inputs.x.shape.length := by
    have h3 : ((self.base_axis_.toNat : Nat) : Int) = self.base_axis_ := Int.toNat_of_nonneg hB0
    omega
  refine ⟨?_, ?_, hrows, ?_, ?_, rfl, rfl, ?_, ?_, rfl, rfl⟩
  · simp
  · have h3 : ((self.base_axis_.toNat : Nat) : Int) = self.base_axis_ := Int.toNat_of_nonneg hB0
    simp only [List.length_append, List.length_take, List.length_singleton]
    rw [Nat.min_eq_left hlen]
    push_cast
    rw [h3]
  · show some R = _
    rw [hrows]
  · show some [L].prod = _
    rw [hL]
  · show (h ++ _)[h.length]? = _
    rw [List.getElem?_append_right (Nat.le_refl _), Nat.sub_self]
    rfl
  · show (h ++ _)[h.length + 1]? = _
    rw [List.getElem?_append_right (Nat.le_add_right _ _), Nat.add_sub_cancel_left]
    rfl

/-- Every entry written by `sign_forward` is the scale or its negation. -/
theorem sign_forward_mem {α : Type} [Zero α] [Neg α] [LT α]
    [DecidableRel (fun a b : α => a < b)] (s : α) (w : List α) (e : α) (he : e ∈ sign_forward s w) :
    e = s ∨ e = -s := by
  unfold sign_forward at he
  obtain ⟨v, _, hv⟩ := List.mem_map.mp he
  by_cases hlt : v < 0
  · rw [if_pos hlt] at hv
    exact Or.inr hv.symm
  · rw [if_neg hlt] at hv
    exact Or.inl hv.symm

/-- Result of `forward_impl` on an operator that `setup_impl` has configured. -/
theorem forward_impl_after_setup {Context : Type} {α : Type} [Zero α] [Add α] [Mul α] [Neg α] [LT α]
    [DecidableRel (fun a b : α => a < b)] (scale : Nat → Nat → List α → α)
    (self : BinaryWeightAffine Context) (inputs0 : Inputs α) (h : Heap Context)
    (r : SetupResult Context) (hs : self.setup_impl inputs0 h = Except.ok r)
    (inputs : Inputs α) (output : Variable α) :
    r.self.forward_impl scale inputs output =
      some ({ inputs with
              binary_weight := { inputs.binary_weight with
                data := sign_forward
                  (scale (inputs0.weight.shape.headD 0) inputs0.weight.shape.tail.prod
                    inputs.weight.data) inputs.weight.data } },
            { output with
              data := affine_forward (inputs.x.shape.take self.base_axis_.toNat).prod
                (inputs0.weight.shape.headD 0) inputs0.weight.shape.tail.prod inputs.x.data
                (sign_forward
                  (scale (inputs0.weight.shape.headD 0) inputs0.weight.shape.tail.prod
                    inputs.weight.data) inputs.weight.data)
                (inputs.bias.map (fun b => b.data)) }) := by
  obtain ⟨_, _, rows, cols, hW, _, _, _, hr⟩ := setup_impl_ok_inv self inputs0 h r hs
  subst hr
  rw [hW]
  rfl

/-- C5: for an operator set up on `inputs` and any contents of the slots,
    `forward_impl` returns, and afterwards the binarized weight has the shape
    of the weight, as many entries as the weight, its entries are
    `sign_forward` of the weight data with the scale `s` computed from the
    weight alone, each entry is `s` or `-s`, and the weight itself is
    unchanged. -/
theorem forward_binarizes_weight {Context : Type} {α : Type} [Zero α] [Add α] [Mul α] [Neg α] [LT α]
    [DecidableRel (fun a b : α => a < b)] (scale : Nat → Nat → List α → α)
    (self : BinaryWeightAffine Context) (inputs : Inputs α) (h : Heap Context)
    (r : SetupResult Context) (output : Variable α)
    (hs : self.setup_impl inputs h = Except.ok r) :
    ∃ res : Inputs α × Variable α,
      r.self.forward_impl scale inputs output = some res
        ∧ res.1.binary_weight.shape = inputs.weight.shape
        ∧ res.1.binary_weight.data.length = inputs.weight.data.length
        ∧ res.1.binary_weight.data
            = sign_forward (scale (inputs.weight.shape.headD 0) inputs.weight.shape.tail.prod
                inputs.weight.data) inputs.weight.data
        ∧ (∀ e ∈ res.1.binary_weight.data,
            e = scale (inputs.weight.shape.headD 0) inputs.weight.shape.tail.prod
                  inputs.weight.data
              ∨ e = -scale (inputs.weight.shape.headD 0) inputs.weight.shape.tail.prod
                  inputs.weight.data)
        ∧ res.1.weight = inputs.weight := by
  obtain ⟨_, _, rows, cols, _, _, hwb, _, _⟩ := setup_impl_ok_inv self inputs h r hs
  refine ⟨_, forward_impl_after_setup scale self inputs h r hs inputs output, hwb, ?_, rfl, ?_, rfl⟩
  · simp [sign_forward]
  · intro e he
    exact sign_forward_mem _ _ e he

/-- C9: for an operator set up on `inputs`, `forward_impl` returns and the output
    data is `affine_forward` of the input data, the freshly binarized weight
    (`sign_forward` of the weight data, which is also what the binarized-weight
    slot holds afterwards) and the optional bias; the output is the same
    whatever the binarized-weight slot held before; without a bias it is the
    matrix product alone. -/
theorem forward_output_from_binarized {Context : Type} {α : Type} [Zero α] [Add α] [Mul α] [Neg α] [LT α]
    [DecidableRel (fun a b : α => a < b)] (scale : Nat → Nat → List α → α)
    (self : BinaryWeightAffine Context) (inputs : Inputs α) (h : Heap Context)
    (r : SetupResult Context) (output : Variable α)
    (hs : self.setup_impl inputs h = Except.ok r) :
    ∃ res : Inputs α × Variable α,
      r.self.forward_impl scale inputs output = some res
        ∧ res.2.data
            = affine_forward (inputs.x.shape.take self.base_axis_.toNat).prod
                (inputs.x.shape.drop self.base_axis_.toNat).prod inputs.weight.shape.tail.prod
                inputs.x.data
                (sign_forward (scale (inputs.weight.shape.headD 0)
                  inputs.weight.shape.tail.prod inputs.weight.data) inputs.weight.data)
                (inputs.bias.map (fun b => b.data))
        ∧ res.2.data
            = affine_forward (inputs.x.shape.take self.base_axis_.toNat).prod
                (inputs.x.shape.drop self.base_axis_.toNat).prod inputs.weight.shape.tail.prod
                inputs.x.data res.1.binary_weight.data (inputs.bias.map (fun b => b.data))
        ∧ res.2.shape = output.shape
        ∧ (∀ stale : Variable α,
            (r.self.forward_impl scale { inputs with binary_weight := stale } output).map
                Prod.snd = some res.2)
        ∧ (inputs.bias = none →
            res.2.data
              = matmul (inputs.x.shape.take self.base_axis_.toNat).prod
                  (inputs.x.shape.drop self.base_axis_.toNat).prod inputs.weight.shape.tail.prod
                  inputs.x.data
                  (sign_forward (scale (inputs.weight.shape.headD 0)
                    inputs.weight.shape.tail.prod inputs.weight.data) inputs.weight.data)) := by
  obtain ⟨_, _, rows, cols, hW, hrows, _, _, _⟩ := setup_impl_ok_inv self inputs h r hs
  have hhead : inputs.weight.shape.headD 0 = (inputs.x.shape.drop self.base_axis_.toNat).prod := by
    rw [hW, ← hrows]
    rfl
  refine ⟨_, forward_impl_after_setup scale self inputs h r hs inputs output, ?_, ?_, rfl, ?_, ?_⟩
  · show affine_forward _ _ _ _ _ _ = _
    rw [hhead]
  · show affine_forward _ _ _ _ _ _ = _
    rw [hhead]
  · intro stale
    rw [forward_impl_after_setup scale self inputs h r hs { inputs with binary_weight := stale }
      output]
    rfl
  · intro hb
    show affine_forward _ _ _ _ _ _ = _
    rw [hhead, hb]
    rfl

/-- C6: for an operator set up on any inputs, any contents of the slots and any
    `propagate_down` and `accum` flags, `backward_impl` returns and leaves the
    binarized-weight variable and the bias exactly as they were; of the input
    array and of the weight only the gradient can differ. -/
theorem backward_keeps_binary_weight {Context α : Type} [Add α]
    (grad_x grad_w : Inputs α → Variable α → List α)
    (self : BinaryWeightAffine Context) (inputs0 : Inputs α) (h : Heap Context)
    (r : SetupResult Context) (inputs : Inputs α) (output : Variable α)
    (propagate_down accum : List Bool)
    (hs : self.setup_impl inputs0 h = Except.ok r) :
    ∃ res : Inputs α,
      r.self.backward_impl grad_x grad_w inputs output propagate_down accum = some res
        ∧ res.binary_weight = inputs.binary_weight
        ∧ res.bias = inputs.bias
        ∧ res.x.data = inputs.x.data ∧ res.x.shape = inputs.x.shape
        ∧ res.weight.data = inputs.weight.data ∧ res.weight.shape = inputs.weight.shape := by
  obtain ⟨_, _, rows, cols, _, _, _, _, hr⟩ := setup_impl_ok_inv self inputs0 h r hs
  subst hr
  refine ⟨_, rfl, rfl, rfl, ?_, ?_, ?_, ?_⟩
  all_goals
    dsimp only
    split <;> rfl

/-! ## Instances -/

/-- Instance of C7: a weight of four rows against three input features is
    rejected with the dimension-mismatch error, and the accepted `inputs23` has
    three rows. -/
theorem setup_fails_on_row_mismatch_witness :
    op1.setup_impl inputs43 ([] : Heap Unit) = Except.error SetupError.dimension_mismatch
      ∧ op1.setup_impl inputs23 ([] : Heap Unit) = Except.ok setup23
      ∧ inputs23.weight.shape.head? = some 3 :=
  ⟨(setup_fails_on_row_mismatch op1 inputs43 [] (by decide) (by decide)).1 (by decide),
   rfl,
   (setup_fails_on_row_mismatch op1 inputs23 [] (by decide) (by decide)).2 setup23 rfl⟩

/-- Instance of C8: `setup_impl` of `op1` on a `2 x 3` input and a `3 x 2`
    weight gives the output shape `2 x 2` and caches 3 and 2. -/
theorem setup_output_shape_witness :
    op1.setup_impl inputs23 ([] : Heap Unit) = Except.ok setup23
      ∧ setup23.out_shape = [2, 2]
      ∧ setup23.self.w_row_ = some 3
      ∧ setup23.self.w_col_ = some 2 :=
  ⟨rfl,
   (setup_output_shape op1 inputs23 [] setup23 3 2 rfl rfl).1,
   (setup_output_shape op1 inputs23 [] setup23 3 2 rfl rfl).2.2.2.1,
   (setup_output_shape op1 inputs23 [] setup23 3 2 rfl rfl).2.2.2.2.1⟩

/-- Instance of C5: with the scale 2 the weight `[5, -7, -1, 0, 2, -3]` is
    binarized to `[2, -2, -2, 2, 2, -2]`, replacing the stale contents. -/
theorem forward_binarizes_weight_witness :
    ∃ res : Inputs Int × Variable Int,
      op1_ready.forward_impl scale2 inputs23 output22 = some res
        ∧ res.1.binary_weight.shape = [3, 2]
        ∧ res.1.binary_weight.data = [2, -2, -2, 2, 2, -2] := by
  obtain ⟨res, h1, h2, _, h4, _, _⟩ :=
    forward_binarizes_weight scale2 op1 inputs23 [] setup23 output22 rfl
  exact ⟨res, h1, h2, h4⟩

/-- Instance of C9: the output for `inputs23` is `[14, 16, 20, 10]`, which is
    not what the floating-point weight or the stale binarized weight would
    give. -/
theorem forward_output_from_binarized_witness :
    (∃ res : Inputs Int × Variable Int,
      op1_ready.forward_impl scale2 inputs23 output22 = some res
        ∧ res.2.data = [14, 16, 20, 10])
      ∧ affine_forward 2 3 2 inputs23.x.data inputs23.weight.data (some [10, 20])
          ≠ [14, 16, 20, 10]
      ∧ affine_forward 2 3 2 inputs23.x.data inputs23.binary_weight.data (some [10, 20])
          ≠ [14, 16, 20, 10] := by
  refine ⟨?_, by decide, by decide⟩
  obtain ⟨res, h1, h2, _⟩ :=
    forward_output_from_binarized scale2 op1 inputs23 [] setup23 output22 rfl
  exact ⟨res, h1, h2⟩

/-- Instance of C6: a backward pass on `inputs23` with every flag of
    `propagate_down` set writes the two gradients and keeps the stale
    binarized weight `[9, 9, 9, 9, 9, 9]`. -/
theorem backward_keeps_binary_weight_witness :
    ∃ res : Inputs Int,
      op1_ready.backward_impl grad_x7 grad_w8 inputs23 output22 [true, true, true, true]
          [false, true, false, false] = some res
        ∧ res.binary_weight = inputs23.binary_weight
        ∧ res.binary_weight.data = [9, 9, 9, 9, 9, 9] := by
  obtain ⟨res, h1, h2, _⟩ :=
    backward_keeps_binary_weight grad_x7 grad_w8 op1 inputs23 [] setup23 inputs23 output22
      [true, true, true, true] [false, true, false, false] rfl
  exact ⟨res, h1, h2, by rw [h2]; rfl⟩

end nbla
